import Mathlib

/-!
Shallow embedding of the Neuroadaptive Tutor audio engine and session logic.

`decodeAudioData` and `AudioPlayer` follow `src/utils/audio.ts`; the quiz
handlers and the session state machine follow
`src/components/TutoringSession.tsx`.  Wall-clock instants (reads of
`audioContext.currentTime`) are passed explicitly as rational numbers, so
the timing arithmetic of the source is modelled exactly.
-/

namespace Tutor

/-- One decoded audio buffer (result of `audioContext.createBuffer` filled
by `decodeAudioData`): a sample rate and the single mono channel of
float samples. -/
structure AudioBuffer where
  sampleRate : ℚ
  channelData : List ℚ
deriving DecidableEq

/-- Web Audio `AudioBuffer.duration`: frame count divided by sample rate. -/
def AudioBuffer.duration (b : AudioBuffer) : ℚ :=
  b.channelData.length / b.sampleRate

/-- Reinterpretation of two consecutive bytes as one little-endian signed
16-bit sample, as the `Int16Array` view in `decodeAudioData` does. -/
def int16OfBytes (lo hi : ℕ) : ℤ :=
  let u := lo + 256 * hi
  if u < 32768 then (u : ℤ) else (u : ℤ) - 65536

/-- The `Int16Array` view of the byte buffer built in `decodeAudioData`
(`new Int16Array(bytes.buffer, 0, Math.floor(bytes.length / 2))`):
consecutive little-endian byte pairs; a trailing odd byte is not part of
any sample. -/
def toInt16Array : List ℕ → List ℤ
  | lo :: hi :: rest => int16OfBytes lo hi :: toInt16Array rest
  | [_] => []
  | [] => []

/-- `decodeAudioData` from `src/utils/audio.ts` (lines 1-36): the input is
the byte list produced by the `atob`/`charCodeAt` loop; the data is raw
16-bit mono PCM at 24 kHz and each 16-bit value is divided by 32768.
Decoding is total: an odd byte length only truncates the final partial
sample (the source merely logs a console warning). -/
def decodeAudioData (bytes : List ℕ) : AudioBuffer :=
  { sampleRate := 24000
    channelData := (toInt16Array bytes).map (fun v : ℤ => (v : ℚ) / 32768) }

/-- State of `class AudioPlayer` (`src/utils/audio.ts` lines 38-136).
`source` records whether `this.source` is non-null; `onEnded` whether a
completion callback is registered (`this.onEndedCallback`).  Both call
sites of `play` in the repository pass a callback, so `play` always
registers one. -/
structure AudioPlayer where
  source : Bool
  isPlaying : Bool
  pausedAt : ℚ
  startTime : ℚ
  buffer : Option AudioBuffer
  playbackRate : ℚ
  onEnded : Bool
deriving DecidableEq

/-- The constructor `new AudioPlayer(rate)`. -/
def AudioPlayer.new (rate : ℚ) : AudioPlayer :=
  { source := false, isPlaying := false, pausedAt := 0, startTime := 0
    buffer := none, playbackRate := rate, onEnded := false }

/-- `loadAudio`: decodes the byte buffer and stores it. -/
def AudioPlayer.loadAudio (p : AudioPlayer) (bytes : List ℕ) : AudioPlayer :=
  { p with buffer := some (decodeAudioData bytes) }

/-- `play(onEnded)` invoked at wall-clock instant `now` (lines 61-91):
no-op without a buffer; otherwise registers the callback, creates a fresh
source playing from offset `pausedAt`, records the anchor
`startTime := now` and marks the player playing. -/
def AudioPlayer.play (p : AudioPlayer) (now : ℚ) : AudioPlayer :=
  match p.buffer with
  | none => p
  | some _ =>
      { p with onEnded := true, source := true, startTime := now, isPlaying := true }

/-- `pause()` at instant `now` (lines 93-104): only when a source exists
and the player is playing, adds the rate-scaled elapsed wall-clock time to
`pausedAt`, marks not playing, stops and releases the source
(`this.source = null`). -/
def AudioPlayer.pause (p : AudioPlayer) (now : ℚ) : AudioPlayer :=
  if p.source && p.isPlaying then
    { p with pausedAt := p.pausedAt + (now - p.startTime) * p.playbackRate
             isPlaying := false, source := false }
  else p

/-- `stop()` (lines 106-115): only when `this.source` is non-null, halts
rendering, marks not playing and resets `pausedAt` to zero.  Note the
source node reference itself is not cleared here. -/
def AudioPlayer.stop (p : AudioPlayer) : AudioPlayer :=
  if p.source then { p with isPlaying := false, pausedAt := 0 } else p

/-- The `onended` handler installed by `play` (lines 83-90), fired when the
source finishes: only when still marked playing, it marks not playing and
resets `pausedAt`; whether the registered callback then fires is reported
by `AudioPlayer.onEnded` and handled by the session layer. -/
def AudioPlayer.naturalEnd (p : AudioPlayer) : AudioPlayer :=
  if p.isPlaying then { p with isPlaying := false, pausedAt := 0 } else p

/-- `getCurrentTime()` read at instant `now` (lines 123-131). -/
def AudioPlayer.getCurrentTime (p : AudioPlayer) (now : ℚ) : ℚ :=
  match p.buffer with
  | none => 0
  | some _ =>
      if p.isPlaying then p.pausedAt + (now - p.startTime) * p.playbackRate
      else p.pausedAt

/-- `getDuration()` (lines 133-135). -/
def AudioPlayer.getDuration (p : AudioPlayer) : ℚ :=
  match p.buffer with
  | none => 0
  | some b => b.duration

/-- Applies an alternating sequence of `play`/`pause` cycles: each pair
`(a, b)` is a `play` call at instant `a` followed by a `pause` call at
instant `b`. -/
def applyCycles (p : AudioPlayer) : List (ℚ × ℚ) → AudioPlayer
  | [] => p
  | c :: rest => applyCycles ((p.play c.1).pause c.2) rest

/-- Wall-clock instant at which a playing source naturally exhausts its
buffer: the remaining logical audio `duration - pausedAt` is rendered at
`playbackRate` logical seconds per wall-clock second
(`source.start(0, pausedAt)` with `source.playbackRate.value`). -/
def AudioPlayer.endAt (p : AudioPlayer) : ℚ :=
  p.startTime + (p.getDuration - p.pausedAt) / p.playbackRate

/-- An externally triggered player event, carrying the wall-clock instant
at which it happens. -/
inductive PEvent where
  | play (t : ℚ)
  | pause (t : ℚ)
  | stop (t : ℚ)
  | ended (t : ℚ)
deriving DecidableEq

/-- The instant at which an event happens. -/
def PEvent.time : PEvent → ℚ
  | .play t => t
  | .pause t => t
  | .stop t => t
  | .ended t => t

/-- Effect of a player event on the player state. -/
def applyPEvent (p : AudioPlayer) : PEvent → AudioPlayer
  | .play t => p.play t
  | .pause t => p.pause t
  | .stop _ => p.stop
  | .ended _ => p.naturalEnd

/-- A wall-clock instant `t` is observable in state `p` whose last event
happened at `t0`: the clock is monotone, and while playing no instant past
the natural exhaustion of the source is observable (the platform fires
`onended` there first). -/
structure Observable (p : AudioPlayer) (t0 t : ℚ) : Prop where
  mono : t0 ≤ t
  ends : p.isPlaying = true → t ≤ p.endAt

/-- Player states reachable by `play`/`pause`/`stop` calls and natural
completions at physically consistent instants, starting from a freshly
constructed and loaded player at instant `0`.  An `ended` event occurs
exactly at the exhaustion instant of a playing source. -/
inductive Reaches (r : ℚ) (bytes : List ℕ) : AudioPlayer → ℚ → Prop where
  | init : Reaches r bytes ((AudioPlayer.new r).loadAudio bytes) 0
  | step (p : AudioPlayer) (t0 : ℚ) (e : PEvent) :
      Reaches r bytes p t0 →
      Observable p t0 e.time →
      (∀ t, e = PEvent.ended t → p.isPlaying = true ∧ t = p.endAt) →
      Reaches r bytes (applyPEvent p e) e.time

/-- `QuizQuestion` from `src/types.ts`. -/
structure QuizQuestion where
  question : String
  options : List String
  correctIndex : ℤ
deriving DecidableEq

/-- The quiz-related component state of `TutoringSession`
(`currentQuizIndex`, `quizScore`, `quizAnswers` of lines 32-34) plus
whether `setState(SessionState.RATING)` has been called by a quiz
handler. -/
structure QuizState where
  currentQuizIndex : ℕ
  quizScore : ℕ
  quizAnswers : List ℤ
  inRating : Bool
deriving DecidableEq

/-- Initial quiz state (`useState(0)`, `useState(0)`, `useState([])`). -/
def quizInit : QuizState :=
  { currentQuizIndex := 0, quizScore := 0, quizAnswers := [], inRating := false }

/-- `handleQuizAnswer(optionIndex)` (lines 279-296).  The option index is a
natural number because the handler is only invoked from
`question.options.map((option, idx) => ...)` with an array index.
`none` models the runtime failure of dereferencing
`sessionData.quiz[currentQuizIndex]` when the index is out of range. -/
def handleQuizAnswer (quiz : List QuizQuestion) (s : QuizState) (i : ℕ) :
    Option QuizState :=
  match quiz[s.currentQuizIndex]? with
  | none => none
  | some q =>
      let score := if (i : ℤ) = q.correctIndex then s.quizScore + 1 else s.quizScore
      let newAnswers := s.quizAnswers ++ [(i : ℤ)]
      if s.currentQuizIndex < quiz.length - 1 then
        some { currentQuizIndex := s.currentQuizIndex + 1, quizScore := score
               quizAnswers := newAnswers, inRating := false }
      else
        some { s with quizScore := score, quizAnswers := newAnswers, inRating := true }

/-- `handleSkip()` (lines 298-313): records the sentinel `-1`, never
touches the score, advances or finalizes exactly like an answer. -/
def handleSkip (quiz : List QuizQuestion) (s : QuizState) : QuizState :=
  let newAnswers := s.quizAnswers ++ [-1]
  if s.currentQuizIndex < quiz.length - 1 then
    { s with currentQuizIndex := s.currentQuizIndex + 1, quizAnswers := newAnswers }
  else
    { s with quizAnswers := newAnswers, inRating := true }

/-- `handlePreviousQuestion()` (lines 315-334).  `Math.max(0, s - 1)` is
exactly truncated subtraction on `ℕ`.  When the answers list is empty the
source reads `undefined`, which passes the `!== -1` test and then
dereferences the previous question, comparing unequal to its
`correctIndex`. -/
def handlePreviousQuestion (quiz : List QuizQuestion) (s : QuizState) :
    Option QuizState :=
  if s.currentQuizIndex = 0 then some s
  else
    match s.quizAnswers.getLast? with
    | some a =>
        if a = -1 then
          some { s with quizAnswers := s.quizAnswers.dropLast
                        currentQuizIndex := s.currentQuizIndex - 1 }
        else
          match quiz[s.currentQuizIndex - 1]? with
          | none => none
          | some q =>
              some { s with
                     quizScore := if a = q.correctIndex then s.quizScore - 1 else s.quizScore
                     quizAnswers := s.quizAnswers.dropLast
                     currentQuizIndex := s.currentQuizIndex - 1 }
    | none =>
        match quiz[s.currentQuizIndex - 1]? with
        | none => none
        | some _ =>
            some { s with quizAnswers := []
                          currentQuizIndex := s.currentQuizIndex - 1 }

/-- A user-level quiz operation. -/
inductive QuizOp where
  | answer (i : ℕ)
  | skip
  | previous
deriving DecidableEq

/-- One quiz operation.  Once `setState(RATING)` has run, the RATING view
renders no quiz controls, so further quiz operations cannot occur and are
modelled as leaving the state unchanged. -/
def quizStep (quiz : List QuizQuestion) (s : QuizState) : QuizOp → Option QuizState
  | .answer i => if s.inRating then some s else handleQuizAnswer quiz s i
  | .skip => if s.inRating then some s else some (handleSkip quiz s)
  | .previous => if s.inRating then some s else handlePreviousQuestion quiz s

/-- Runs a list of quiz operations from a given state. -/
def runQuizFrom (quiz : List QuizQuestion) (s : QuizState) :
    List QuizOp → Option QuizState
  | [] => some s
  | op :: rest =>
      match quizStep quiz s op with
      | none => none
      | some s2 => runQuizFrom quiz s2 rest

/-- Runs a list of quiz operations from the initial quiz state. -/
def runQuiz (quiz : List QuizQuestion) (ops : List QuizOp) : Option QuizState :=
  runQuizFrom quiz quizInit ops

/-- Recomputed score: the number of recorded answers that are not the skip
sentinel `-1` and equal the `correctIndex` of their question. -/
def scoreOf (quiz : List QuizQuestion) (answers : List ℤ) : ℕ :=
  (answers.zip quiz).countP (fun c => decide (c.1 ≠ -1 ∧ c.1 = c.2.correctIndex))

/-- Inductive invariant of the quiz state: while the quiz is running the
answers list matches the current index, which stays in range; once
finalized the answers list holds one entry more than the index (the
finalizing handler does not advance it); and the score is always the
recomputed one. -/
def quizInv (quiz : List QuizQuestion) (s : QuizState) : Prop :=
  (s.inRating = false →
    s.quizAnswers.length = s.currentQuizIndex ∧ s.currentQuizIndex < quiz.length) ∧
  (s.inRating = true →
    s.quizAnswers.length = s.currentQuizIndex + 1 ∧
    s.currentQuizIndex + 1 = quiz.length) ∧
  s.quizScore = scoreOf quiz s.quizAnswers

/-- The `SessionState` enumeration (`TutoringSession.tsx` lines 17-27). -/
inductive SessionState where
  | LOADING
  | PLAYING
  | LISTENING
  | PROCESSING
  | ANSWERING
  | QUIZ
  | RATING
  | FINISHED
  | ERROR
deriving DecidableEq

/-- The part of the `TutoringSession` component state that the session
orchestration claims are about: the state enum, the configured playback
rate (line 149), the lesson and answer `AudioPlayer` refs (lines 45-46)
and the loaded quiz list (part of `sessionData`). -/
structure Session where
  state : SessionState
  playbackRate : ℚ
  lessonPlayer : Option AudioPlayer
  answerPlayer : Option AudioPlayer
  quiz : List QuizQuestion
deriving DecidableEq

/-- Component state on mount: `useState(SessionState.LOADING)`, null
player refs, no session data yet. -/
def Session.init (rate : ℚ) : Session :=
  { state := .LOADING, playbackRate := rate
    lessonPlayer := none, answerPlayer := none, quiz := [] }

/-- Session-level events.  Each corresponds to one code path of
`TutoringSession.tsx`; instants of `audioContext.currentTime` reads are
carried explicitly. -/
inductive SessionEvent where
  | loadReady (quiz : List QuizQuestion) (lessonBytes : List ℕ)
  | playEffect (t : ℚ)
  | lessonEnded
  | interrupt (t : ℚ)
  | micFail
  | stopRec
  | answerFail
  | answerSuccess (answerBytes : List ℕ) (t : ℚ)
  | answerEnded
deriving DecidableEq

/-- One step of the session orchestration:

* `loadReady`: end of the `init` effect (lines 112-155): stores the quiz,
  creates the lesson player at the configured rate, loads it, sets PLAYING.
* `playEffect t`: the play-on-PLAYING effect (lines 173-195): calls
  `play` on the lesson player with the callback `setState(QUIZ)`.
* `lessonEnded`: the `onended` of the lesson source fires; the registered
  callback sets QUIZ (line 181).
* `interrupt t`: `startInterruption` (lines 199-231): guarded on a present
  player and state PLAYING; pauses the lesson, sets LISTENING.
* `micFail`: the `getUserMedia` catch (line 229): back to PLAYING.
* `stopRec`: `stopInterruption` (lines 233-241), only reachable from the
  LISTENING view: sets PROCESSING.
* `answerFail`: the catch of `processInterruption` (lines 269-273): sets
  PLAYING.
* `answerSuccess bytes t`: the success path of `processInterruption`
  (lines 253-267): sets ANSWERING, creates a unit-rate answer player,
  loads the answer audio and plays it with the callback
  `setState(PLAYING)`.
* `answerEnded`: the `onended` of the answer source fires; its callback
  sets PLAYING (line 265). -/
def sessionStep (s : Session) : SessionEvent → Session
  | .loadReady quiz bytes =>
      if s.state = .LOADING then
        { s with quiz := quiz
                 lessonPlayer := some ((AudioPlayer.new s.playbackRate).loadAudio bytes)
                 state := .PLAYING }
      else s
  | .playEffect t =>
      match s.lessonPlayer with
      | some p => if s.state = .PLAYING then { s with lessonPlayer := some (p.play t) } else s
      | none => s
  | .lessonEnded =>
      match s.lessonPlayer with
      | some p =>
          if p.isPlaying then
            { s with lessonPlayer := some p.naturalEnd
                     state := if p.onEnded then .QUIZ else s.state }
          else s
      | none => s
  | .interrupt t =>
      match s.lessonPlayer with
      | some p =>
          if s.state = .PLAYING then
            { s with lessonPlayer := some (p.pause t), state := .LISTENING }
          else s
      | none => s
  | .micFail => if s.state = .LISTENING then { s with state := .PLAYING } else s
  | .stopRec => if s.state = .LISTENING then { s with state := .PROCESSING } else s
  | .answerFail => if s.state = .PROCESSING then { s with state := .PLAYING } else s
  | .answerSuccess bytes t =>
      if s.state = .PROCESSING then
        { s with state := .ANSWERING
                 answerPlayer := some (((AudioPlayer.new 1).loadAudio bytes).play t) }
      else s
  | .answerEnded =>
      match s.answerPlayer with
      | some p =>
          if p.isPlaying then
            { s with answerPlayer := some p.naturalEnd
                     state := if p.onEnded then .PLAYING else s.state }
          else s
      | none => s

/-- Runs a list of session events. -/
def runSession (s : Session) (evs : List SessionEvent) : Session :=
  evs.foldl sessionStep s

/-- All session states passed through while running the events, the
starting state included. -/
def sessionStates (s : Session) (evs : List SessionEvent) : List SessionState :=
  (evs.scanl sessionStep s).map Session.state

/-! ## Helper lemmas -/

/-- While not playing, `getCurrentTime` on a loaded player returns the
paused offset. -/
theorem getCurrentTime_of_not_playing (q : AudioPlayer) (b : AudioBuffer)
    (hb : q.buffer = some b) (hp : q.isPlaying = false) (t : ℚ) :
    q.getCurrentTime t = q.pausedAt := by
  simp [AudioPlayer.getCurrentTime, hb, hp]

/-- While playing, `getCurrentTime` on a loaded player returns the paused
offset plus the rate-scaled wall-clock time since the anchor. -/
theorem getCurrentTime_of_playing (q : AudioPlayer) (b : AudioBuffer)
    (hb : q.buffer = some b) (hp : q.isPlaying = true) (t : ℚ) :
    q.getCurrentTime t = q.pausedAt + (t - q.startTime) * q.playbackRate := by
  simp [AudioPlayer.getCurrentTime, hb, hp]

/-- The `Int16Array` view holds `⌊bytes.length / 2⌋` samples. -/
theorem toInt16Array_length :
    ∀ (bytes : List ℕ), (toInt16Array bytes).length = bytes.length / 2
  | [] => rfl
  | [_] => by simp [toInt16Array]
  | _ :: _ :: rest => by
      simp [toInt16Array, toInt16Array_length rest]
      omega

/-- Sample `i` of the `Int16Array` view is the little-endian
reinterpretation of bytes `2i` and `2i+1`. -/
theorem toInt16Array_get :
    ∀ (bytes : List ℕ) (i : ℕ), 2 * i + 1 < bytes.length →
      (toInt16Array bytes)[i]? =
        some (int16OfBytes (bytes.getD (2 * i) 0) (bytes.getD (2 * i + 1) 0))
  | [], i, h => by simp at h
  | [_], i, h => by simp at h
  | lo :: hi :: rest, 0, _ => by simp [toInt16Array]
  | lo :: hi :: rest, i + 1, h => by
      have h2 : 2 * i + 1 < rest.length := by
        simp only [List.length_cons] at h; omega
      have e1 : 2 * (i + 1) = (2 * i + 1) + 1 := by ring
      have e2 : 2 * (i + 1) + 1 = (2 * i + 1) + 1 + 1 := by ring
      simp only [toInt16Array, List.getElem?_cons_succ, e1, e2, List.getD_cons_succ]
      exact toInt16Array_get rest i h2

/-- Running alternating `play`/`pause` cycles on a loaded, non-playing
player keeps the buffer and rate, ends non-playing, and accumulates into
`pausedAt` exactly the rate-scaled sum of the wall-clock cycle lengths. -/
theorem applyCycles_spec :
    ∀ (cycles : List (ℚ × ℚ)) (p : AudioPlayer) (b : AudioBuffer),
      p.buffer = some b → p.isPlaying = false →
      (applyCycles p cycles).buffer = some b ∧
      (applyCycles p cycles).isPlaying = false ∧
      (applyCycles p cycles).playbackRate = p.playbackRate ∧
      (applyCycles p cycles).pausedAt =
        p.pausedAt + ((cycles.map fun c => c.2 - c.1).sum) * p.playbackRate
  | [], p, b, hb, hp => by simp [applyCycles, hb, hp]
  | c :: rest, p, b, hb, hp => by
      obtain ⟨src, ip, pa, st, buf, rate, oe⟩ := p
      simp only at hb hp
      subst hb hp
      have step : ((AudioPlayer.mk src false pa st (some b) rate oe).play c.1).pause c.2
          = AudioPlayer.mk false false (pa + (c.2 - c.1) * rate) c.1 (some b) rate true := by
        simp [AudioPlayer.play, AudioPlayer.pause]
      have ih := applyCycles_spec rest
        (AudioPlayer.mk false false (pa + (c.2 - c.1) * rate) c.1 (some b) rate true) b rfl rfl
      simp only [applyCycles, step]
      refine ⟨ih.1, ih.2.1, ih.2.2.1, ?_⟩
      rw [ih.2.2.2]
      simp only [List.map_cons, List.sum_cons]
      ring

/-- The duration of any decoded buffer is nonnegative. -/
theorem decode_duration_nonneg (bytes : List ℕ) :
    0 ≤ (decodeAudioData bytes).duration := by
  have hd : (decodeAudioData bytes).duration
      = ((decodeAudioData bytes).channelData.length : ℚ) / 24000 := rfl
  rw [hd]
  positivity

/-- `getDuration` on a loaded player returns the buffer duration. -/
theorem getDuration_eq (q : AudioPlayer) (b : AudioBuffer)
    (hb : q.buffer = some b) : q.getDuration = b.duration := by
  simp [AudioPlayer.getDuration, hb]

/-- Invariant of every reachable player state: the rate and buffer are the
constructed ones, the paused offset stays within `[0, duration]`, and
while playing a source node exists and the anchor lies in the past. -/
theorem reaches_inv {r : ℚ} {bytes : List ℕ} (hr : 0 < r) {p : AudioPlayer}
    {t0 : ℚ} (h : Reaches r bytes p t0) :
    p.playbackRate = r ∧ p.buffer = some (decodeAudioData bytes) ∧
    0 ≤ p.pausedAt ∧ p.pausedAt ≤ (decodeAudioData bytes).duration ∧
    (p.isPlaying = true → p.source = true ∧ p.startTime ≤ t0) := by
  induction h with
  | init =>
      refine ⟨rfl, rfl, le_refl 0, decode_duration_nonneg bytes, fun hp => ?_⟩
      exact absurd hp (by simp [AudioPlayer.new, AudioPlayer.loadAudio])
  | step q s0 e hre hobs hend ih =>
      obtain ⟨ihr, ihb, ih0, ihd, ihpl⟩ := ih
      cases e with
      | play t =>
          have hmono : s0 ≤ t := hobs.mono
          have hq : applyPEvent q (.play t)
              = { q with onEnded := true, source := true, startTime := t,
                         isPlaying := true } := by
            show q.play t = _
            unfold AudioPlayer.play
            rw [ihb]
          rw [hq]
          exact ⟨ihr, ihb, ih0, ihd, fun _ => ⟨rfl, le_refl t⟩⟩
      | pause t =>
          have hmono : s0 ≤ t := hobs.mono
          by_cases hc : (q.source && q.isPlaying) = true
          · have hc2 : q.source = true ∧ q.isPlaying = true := by simpa using hc
            have hp := hc2.2
            have hst : q.startTime ≤ s0 := (ihpl hp).2
            have hendq : t ≤ q.endAt := hobs.ends hp
            have hE : q.endAt
                = q.startTime + ((decodeAudioData bytes).duration - q.pausedAt) / r := by
              unfold AudioPlayer.endAt
              rw [getDuration_eq q _ ihb, ihr]
            rw [hE] at hendq
            have h1 : t - q.startTime
                ≤ ((decodeAudioData bytes).duration - q.pausedAt) / r := by linarith
            have h2 : (t - q.startTime) * r
                ≤ (decodeAudioData bytes).duration - q.pausedAt :=
              (le_div_iff₀ hr).1 h1
            have h3 : 0 ≤ (t - q.startTime) * r :=
              mul_nonneg (by linarith) hr.le
            have hq : applyPEvent q (.pause t)
                = { q with pausedAt := q.pausedAt + (t - q.startTime) * q.playbackRate,
                           isPlaying := false, source := false } := by
              show q.pause t = _
              unfold AudioPlayer.pause
              rw [if_pos hc]
            rw [hq]
            refine ⟨ihr, ihb, ?_, ?_, fun hfp => (Bool.false_ne_true hfp).elim⟩
            · show 0 ≤ q.pausedAt + (t - q.startTime) * q.playbackRate
              rw [ihr]
              linarith
            · show q.pausedAt + (t - q.startTime) * q.playbackRate
                ≤ (decodeAudioData bytes).duration
              rw [ihr]
              linarith
          · have hq : applyPEvent q (.pause t) = q := by
              show q.pause t = _
              unfold AudioPlayer.pause
              rw [if_neg hc]
            rw [hq]
            exact ⟨ihr, ihb, ih0, ihd,
              fun hp => ⟨(ihpl hp).1, le_trans (ihpl hp).2 hmono⟩⟩
      | stop t =>
          have hmono : s0 ≤ t := hobs.mono
          by_cases hc : q.source = true
          · have hq : applyPEvent q (.stop t)
                = { q with isPlaying := false, pausedAt := 0 } := by
              show q.stop = _
              unfold AudioPlayer.stop
              rw [if_pos hc]
            rw [hq]
            exact ⟨ihr, ihb, le_refl 0, decode_duration_nonneg bytes,
              fun hfp => (Bool.false_ne_true hfp).elim⟩
          · have hq : applyPEvent q (.stop t) = q := by
              show q.stop = _
              unfold AudioPlayer.stop
              rw [if_neg hc]
            rw [hq]
            exact ⟨ihr, ihb, ih0, ihd,
              fun hp => ⟨(ihpl hp).1, le_trans (ihpl hp).2 hmono⟩⟩
      | ended t =>
          obtain ⟨hp, -⟩ := hend t rfl
          have hq : applyPEvent q (.ended t)
              = { q with isPlaying := false, pausedAt := 0 } := by
            show q.naturalEnd = _
            unfold AudioPlayer.naturalEnd
            rw [if_pos hp]
          rw [hq]
          exact ⟨ihr, ihb, le_refl 0, decode_duration_nonneg bytes,
            fun hfp => (Bool.false_ne_true hfp).elim⟩

/-- Zipping against a longer list, appending one element on the left adds
exactly that element's contribution to the count. -/
theorem countP_zip_snoc {α β : Type} (f : α × β → Bool) :
    ∀ (xs : List α) (ys : List β) (a : α) (q : β),
      ys[xs.length]? = some q →
      ((xs ++ [a]).zip ys).countP f
        = ((xs.zip ys).countP f) + (if f (a, q) then 1 else 0)
  | [], ys, a, q, h => by
      cases ys with
      | nil => simp at h
      | cons y ys2 =>
          simp only [List.length_nil, List.getElem?_cons_zero, Option.some.injEq] at h
          subst h
          simp [List.countP_cons]
  | x :: xs2, ys, a, q, h => by
      cases ys with
      | nil => simp at h
      | cons y ys2 =>
          have h2 : ys2[xs2.length]? = some q := by simpa using h
          simp only [List.cons_append, List.zip_cons_cons, List.countP_cons]
          rw [countP_zip_snoc f xs2 ys2 a q h2]
          omega

/-- One quiz operation from a state satisfying the invariant succeeds and
preserves the invariant. -/
theorem quizStep_inv (quiz : List QuizQuestion) (s : QuizState) (op : QuizOp)
    (hs : quizInv quiz s) :
    ∃ s2, quizStep quiz s op = some s2 ∧ quizInv quiz s2 := by
  cases hR : s.inRating with
  | true =>
      refine ⟨s, ?_, hs⟩
      cases op <;> simp [quizStep, hR]
  | false =>
      obtain ⟨hlen, hlt⟩ := hs.1 hR
      have hsc := hs.2.2
      obtain ⟨q, hq⟩ : ∃ q, quiz[s.currentQuizIndex]? = some q :=
        ⟨_, List.getElem?_eq_getElem hlt⟩
      cases op with
      | answer i =>
          have hsnoc := countP_zip_snoc
            (fun c => decide (c.1 ≠ -1 ∧ c.1 = c.2.correctIndex))
            s.quizAnswers quiz (i : ℤ) q (by rw [hlen]; exact hq)
          have hnneg : (i : ℤ) ≠ -1 := by omega
          have hscore :
              scoreOf quiz (s.quizAnswers ++ [(i : ℤ)])
                = s.quizScore + (if (i : ℤ) = q.correctIndex then 1 else 0) := by
            unfold scoreOf at hsc ⊢
            rw [hsnoc, ← hsc]
            by_cases hcor : (i : ℤ) = q.correctIndex
            · simp [hcor, hnneg]
              omega
            · simp [hcor]
          by_cases hadv : s.currentQuizIndex < quiz.length - 1
          · refine ⟨{ currentQuizIndex := s.currentQuizIndex + 1
                      quizScore := if (i : ℤ) = q.correctIndex
                        then s.quizScore + 1 else s.quizScore
                      quizAnswers := s.quizAnswers ++ [(i : ℤ)]
                      inRating := false }, ?_, ?_, ?_, ?_⟩
            · simp [quizStep, hR, handleQuizAnswer, hq, hadv]
            · intro _
              refine ⟨by simp [hlen], ?_⟩
              show s.currentQuizIndex + 1 < quiz.length
              omega
            · intro h
              exact nomatch h
            · show (if (i : ℤ) = q.correctIndex then s.quizScore + 1 else s.quizScore)
                = scoreOf quiz (s.quizAnswers ++ [(i : ℤ)])
              rw [hscore]
              by_cases hcor : (i : ℤ) = q.correctIndex <;> simp [hcor]
          · refine ⟨{ s with
                      quizScore := if (i : ℤ) = q.correctIndex
                        then s.quizScore + 1 else s.quizScore
                      quizAnswers := s.quizAnswers ++ [(i : ℤ)]
                      inRating := true }, ?_, ?_, ?_, ?_⟩
            · simp [quizStep, hR, handleQuizAnswer, hq, hadv]
            · intro h
              exact nomatch h
            · intro _
              refine ⟨by simp [hlen], ?_⟩
              show s.currentQuizIndex + 1 = quiz.length
              omega
            · show (if (i : ℤ) = q.correctIndex then s.quizScore + 1 else s.quizScore)
                = scoreOf quiz (s.quizAnswers ++ [(i : ℤ)])
              rw [hscore]
              by_cases hcor : (i : ℤ) = q.correctIndex <;> simp [hcor]
      | skip =>
          have hsnoc := countP_zip_snoc
            (fun c => decide (c.1 ≠ -1 ∧ c.1 = c.2.correctIndex))
            s.quizAnswers quiz (-1) q (by rw [hlen]; exact hq)
          have hscore : scoreOf quiz (s.quizAnswers ++ [-1]) = s.quizScore := by
            unfold scoreOf at hsc ⊢
            rw [hsnoc, ← hsc]
            simp
          by_cases hadv : s.currentQuizIndex < quiz.length - 1
          · refine ⟨{ s with
                      currentQuizIndex := s.currentQuizIndex + 1
                      quizAnswers := s.quizAnswers ++ [-1] }, ?_, ?_, ?_, ?_⟩
            · simp [quizStep, hR, handleSkip, hadv]
            · intro _
              refine ⟨by simp [hlen], ?_⟩
              show s.currentQuizIndex + 1 < quiz.length
              omega
            · intro h
              have h2 : s.inRating = true := h
              rw [hR] at h2
              exact nomatch h2
            · show s.quizScore = scoreOf quiz (s.quizAnswers ++ [-1])
              rw [hscore]
          · refine ⟨{ s with
                      quizAnswers := s.quizAnswers ++ [-1]
                      inRating := true }, ?_, ?_, ?_, ?_⟩
            · simp [quizStep, hR, handleSkip, hadv]
            · intro h
              exact nomatch h
            · intro _
              refine ⟨by simp [hlen], ?_⟩
              show s.currentQuizIndex + 1 = quiz.length
              omega
            · show s.quizScore = scoreOf quiz (s.quizAnswers ++ [-1])
              rw [hscore]
      | previous =>
          by_cases h0 : s.currentQuizIndex = 0
          · refine ⟨s, ?_, hs⟩
            simp [quizStep, hR, handlePreviousQuestion, h0]
          · have hne : s.quizAnswers ≠ [] := by
              intro hnil
              rw [hnil] at hlen
              exact h0 (by simpa using hlen.symm)
            obtain ⟨qp, hqp⟩ : ∃ qp, quiz[s.currentQuizIndex - 1]? = some qp :=
              ⟨_, List.getElem?_eq_getElem (by omega)⟩
            have hlast : s.quizAnswers.getLast? = some (s.quizAnswers.getLast hne) :=
              List.getLast?_eq_getLast _ hne
            have hsnoc2 : s.quizAnswers.dropLast ++ [s.quizAnswers.getLast hne]
                = s.quizAnswers := List.dropLast_append_getLast hne
            have hdllen : s.quizAnswers.dropLast.length = s.currentQuizIndex - 1 := by
              rw [List.length_dropLast, hlen]
            have hsnoc := countP_zip_snoc
              (fun c => decide (c.1 ≠ -1 ∧ c.1 = c.2.correctIndex))
              s.quizAnswers.dropLast quiz (s.quizAnswers.getLast hne) qp
              (by rw [hdllen]; exact hqp)
            rw [hsnoc2] at hsnoc
            by_cases hm1 : s.quizAnswers.getLast hne = -1
            · refine ⟨{ s with
                        quizAnswers := s.quizAnswers.dropLast
                        currentQuizIndex := s.currentQuizIndex - 1 }, ?_, ?_, ?_, ?_⟩
              · simp [quizStep, hR, handlePreviousQuestion, h0, hlast, hm1]
              · intro _
                exact ⟨hdllen, by show s.currentQuizIndex - 1 < quiz.length; omega⟩
              · intro h
                have h2 : s.inRating = true := h
                rw [hR] at h2
                exact nomatch h2
              · show s.quizScore = scoreOf quiz s.quizAnswers.dropLast
                unfold scoreOf at hsc ⊢
                rw [hsc, hsnoc]
                simp [hm1]
            · refine ⟨{ s with
                        quizScore := if s.quizAnswers.getLast hne = qp.correctIndex
                          then s.quizScore - 1 else s.quizScore
                        quizAnswers := s.quizAnswers.dropLast
                        currentQuizIndex := s.currentQuizIndex - 1 }, ?_, ?_, ?_, ?_⟩
              · simp [quizStep, hR, handlePreviousQuestion, h0, hlast, hm1, hqp]
              · intro _
                exact ⟨hdllen, by show s.currentQuizIndex - 1 < quiz.length; omega⟩
              · intro h
                have h2 : s.inRating = true := h
                rw [hR] at h2
                exact nomatch h2
              · show (if s.quizAnswers.getLast hne = qp.correctIndex
                    then s.quizScore - 1 else s.quizScore)
                  = scoreOf quiz s.quizAnswers.dropLast
                by_cases hcor : s.quizAnswers.getLast hne = qp.correctIndex
                · rw [if_pos hcor]
                  unfold scoreOf at hsc ⊢
                  rw [hsc, hsnoc]
                  simp [hm1, hcor]
                  rw [if_neg (hcor ▸ hm1)]
                  omega
                · rw [if_neg hcor]
                  unfold scoreOf at hsc ⊢
                  rw [hsc, hsnoc]
                  simp [hcor]

/-- Running any list of quiz operations from an invariant state succeeds
and preserves the invariant. -/
theorem runQuizFrom_inv (quiz : List QuizQuestion) :
    ∀ (ops : List QuizOp) (s : QuizState), quizInv quiz s →
      ∃ s2, runQuizFrom quiz s ops = some s2 ∧ quizInv quiz s2
  | [], s, hs => ⟨s, rfl, hs⟩
  | op :: rest, s, hs => by
      obtain ⟨s1, h1, hinv1⟩ := quizStep_inv quiz s op hs
      obtain ⟨s2, h2, hinv2⟩ := runQuizFrom_inv quiz rest s1 hinv1
      refine ⟨s2, ?_, hinv2⟩
      unfold runQuizFrom
      rw [h1]
      exact h2

/-! ## Claims -/

/-- C1: for every sequence of alternating `play`/`pause` cycles on an
`AudioPlayer` constructed with fixed rate `r` and a loaded buffer, the
value of `getCurrentTime` immediately after the last `pause` equals the
sum of the playing intervals' wall-clock durations, each scaled by `r`
(exactly, in the rational model, hence within any tolerance). -/
theorem c1_pause_accumulates_logical_time (r : ℚ) (bytes : List ℕ)
    (cycles : List (ℚ × ℚ)) (t : ℚ) :
    (applyCycles ((AudioPlayer.new r).loadAudio bytes) cycles).getCurrentTime t =
      ((cycles.map fun c => c.2 - c.1).sum) * r := by
  have h := applyCycles_spec cycles ((AudioPlayer.new r).loadAudio bytes)
      (decodeAudioData bytes) rfl rfl
  rw [getCurrentTime_of_not_playing _ _ h.1 h.2.1, h.2.2.2]
  simp [AudioPlayer.new, AudioPlayer.loadAudio]

/-- C2: in every player state reachable (at positive rate `r`) by
physically consistent `play`/`pause`/`stop` calls and natural completions,
at every observable instant `t`, `getCurrentTime` lies in
`[0, getDuration]`; it is monotone in the clock while playing; and while
paused it equals the frozen paused offset, independent of the clock. -/
theorem c2_position_invariant (r : ℚ) (bytes : List ℕ) (hr : 0 < r)
    (p : AudioPlayer) (t0 : ℚ) (hre : Reaches r bytes p t0)
    (t u : ℚ) (ht : Observable p t0 t) (hu : t ≤ u) :
    0 ≤ p.getCurrentTime t ∧ p.getCurrentTime t ≤ p.getDuration ∧
    (p.isPlaying = true → p.getCurrentTime t ≤ p.getCurrentTime u) ∧
    (p.isPlaying = false → p.getCurrentTime t = p.pausedAt) := by
  obtain ⟨ihr, ihb, ih0, ihd, ihpl⟩ := reaches_inv hr hre
  have hD : p.getDuration = (decodeAudioData bytes).duration := getDuration_eq p _ ihb
  cases hp : p.isPlaying with
  | false =>
      rw [getCurrentTime_of_not_playing p _ ihb hp]
      exact ⟨ih0, by rw [hD]; exact ihd,
        fun hpl => absurd hpl Bool.false_ne_true,
        fun _ => rfl⟩
  | true =>
      obtain ⟨hsrc, hst⟩ := ihpl hp
      have hts : p.startTime ≤ t := le_trans hst ht.mono
      have hendq : t ≤ p.endAt := ht.ends hp
      have hE : p.endAt
          = p.startTime + ((decodeAudioData bytes).duration - p.pausedAt) / r := by
        unfold AudioPlayer.endAt
        rw [getDuration_eq p _ ihb, ihr]
      rw [hE] at hendq
      have h1 : t - p.startTime
          ≤ ((decodeAudioData bytes).duration - p.pausedAt) / r := by linarith
      have h2 : (t - p.startTime) * r
          ≤ (decodeAudioData bytes).duration - p.pausedAt := (le_div_iff₀ hr).1 h1
      have h3 : 0 ≤ (t - p.startTime) * r := mul_nonneg (by linarith) hr.le
      rw [getCurrentTime_of_playing p _ ihb hp t,
        getCurrentTime_of_playing p _ ihb hp u, ihr, hD]
      refine ⟨by linarith, by linarith, fun _ => ?_,
        fun hpl => (Bool.false_ne_true hpl.symm).elim⟩
      have : (t - p.startTime) * r ≤ (u - p.startTime) * r :=
        mul_le_mul_of_nonneg_right (by linarith) hr.le
      linarith

/-- Witness for C2 at the freshly loaded player, instants 0 and 1. -/
theorem c2_position_invariant_witness :
    0 ≤ ((AudioPlayer.new 1).loadAudio [1, 2]).getCurrentTime 0 ∧
    ((AudioPlayer.new 1).loadAudio [1, 2]).getCurrentTime 0
      ≤ ((AudioPlayer.new 1).loadAudio [1, 2]).getDuration ∧
    (((AudioPlayer.new 1).loadAudio [1, 2]).isPlaying = true →
      ((AudioPlayer.new 1).loadAudio [1, 2]).getCurrentTime 0
        ≤ ((AudioPlayer.new 1).loadAudio [1, 2]).getCurrentTime 1) ∧
    (((AudioPlayer.new 1).loadAudio [1, 2]).isPlaying = false →
      ((AudioPlayer.new 1).loadAudio [1, 2]).getCurrentTime 0
        = ((AudioPlayer.new 1).loadAudio [1, 2]).pausedAt) :=
  c2_position_invariant 1 [1, 2] (by norm_num) _ 0 Reaches.init 0 1
    ⟨le_refl 0, fun h => absurd h (by simp [AudioPlayer.new, AudioPlayer.loadAudio])⟩
    (by norm_num)

/-- C3 counterexample: play then pause at instant 5 (rate 1), then
`stop()`.  Since `pause` released the source node, `stop` is a no-op: the
paused offset stays 5 and the next `getCurrentTime` returns 5, not 0. -/
theorem c3_counterexample :
    ((((AudioPlayer.new 1).loadAudio [1, 2]).play 0).pause 5).stop.isPlaying = false ∧
    ((((AudioPlayer.new 1).loadAudio [1, 2]).play 0).pause 5).stop.pausedAt = 5 ∧
    ¬ ((((AudioPlayer.new 1).loadAudio [1, 2]).play 0).pause 5).stop.getCurrentTime 7 = 0 := by
  norm_num [AudioPlayer.new, AudioPlayer.loadAudio, AudioPlayer.play, AudioPlayer.pause,
    AudioPlayer.stop, AudioPlayer.getCurrentTime]

/-- C3 amended: `stop()` resets the paused offset to zero and halts
playback exactly when a source node exists (in particular while playing,
or after a natural completion); when called with no source node — on a
never-started player, or while paused mid-track, because `pause()`
releases the node — it is a no-op, and after a mid-track pause a
subsequent `getCurrentTime` still returns the preserved offset. -/
theorem c3_stop_amended (p : AudioPlayer) (t : ℚ) :
    (p.source = true →
      p.stop.pausedAt = 0 ∧ p.stop.isPlaying = false ∧ p.stop.getCurrentTime t = 0) ∧
    (p.source = false → p.stop = p) := by
  constructor
  · intro h
    cases hb : p.buffer <;>
      simp [AudioPlayer.stop, AudioPlayer.getCurrentTime, h, hb]
  · intro h
    simp [AudioPlayer.stop, h]

/-- Witness for the amended C3 theorem at a playing player. -/
theorem c3_stop_amended_witness :
    (((AudioPlayer.new 1).loadAudio [1, 2]).play 0).stop.pausedAt = 0 ∧
    (((AudioPlayer.new 1).loadAudio [1, 2]).play 0).stop.isPlaying = false ∧
    (((AudioPlayer.new 1).loadAudio [1, 2]).play 0).stop.getCurrentTime 3 = 0 :=
  (c3_stop_amended (((AudioPlayer.new 1).loadAudio [1, 2]).play 0) 3).1 rfl

/-- C9: decoding never fails for any byte buffer: it yields exactly
`⌊length / 2⌋` samples — an odd trailing byte is truncated — and sample
`i` is the little-endian signed 16-bit value of bytes `2i, 2i+1` divided
by 32768. -/
theorem c9_decode_truncates (bytes : List ℕ) :
    (decodeAudioData bytes).channelData.length = bytes.length / 2 ∧
    ∀ i, 2 * i + 1 < bytes.length →
      (decodeAudioData bytes).channelData[i]? =
        some ((int16OfBytes (bytes.getD (2 * i) 0) (bytes.getD (2 * i + 1) 0) : ℚ) / 32768) := by
  have hch : (decodeAudioData bytes).channelData
      = (toInt16Array bytes).map (fun v : ℤ => (v : ℚ) / 32768) := rfl
  constructor
  · rw [hch, List.length_map]
    exact toInt16Array_length bytes
  · intro i h
    rw [hch, List.getElem?_map, toInt16Array_get bytes i h]
    rfl

/-- Witness for C9 on the odd-length buffer `[1, 2, 3]`: one sample,
value `(1 + 256 * 2) / 32768`, the final byte truncated. -/
theorem c9_decode_truncates_witness :
    (decodeAudioData [1, 2, 3]).channelData.length = 1 ∧
    (decodeAudioData [1, 2, 3]).channelData[0]? = some ((513 : ℚ) / 32768) := by
  have h := c9_decode_truncates [1, 2, 3]
  refine ⟨by simpa using h.1, ?_⟩
  rw [h.2 0 (by norm_num)]
  norm_num [int16OfBytes]

/-- C10: on a player with no loaded buffer, `play` is a complete no-op
(state unchanged, hence no source started and no callback registered) and
`getCurrentTime` and `getDuration` both return 0. -/
theorem c10_play_without_buffer (p : AudioPlayer) (h : p.buffer = none) (t u : ℚ) :
    p.play t = p ∧ p.getCurrentTime u = 0 ∧ p.getDuration = 0 := by
  refine ⟨?_, ?_, ?_⟩ <;>
    simp [AudioPlayer.play, AudioPlayer.getCurrentTime, AudioPlayer.getDuration, h]

/-- Witness for C10 at a freshly constructed player. -/
theorem c10_play_without_buffer_witness :
    (AudioPlayer.new 1).play 2 = AudioPlayer.new 1 ∧
    (AudioPlayer.new 1).getCurrentTime 3 = 0 ∧
    (AudioPlayer.new 1).getDuration = 0 :=
  c10_play_without_buffer (AudioPlayer.new 1) rfl 2 3

/-- C5 counterexample: a one-question quiz (correct index 0) after the
single operation `answer 0` reaches RATING with `quizAnswers = [0]` but
`currentQuizIndex = 0`: the answers list has length `currentIndex + 1`,
not `currentIndex`, because the finalizing handler does not advance the
index. -/
theorem c5_counterexample :
    runQuiz [⟨"q", ["a", "b"], 0⟩] [.answer 0] = some ⟨0, 1, [0], true⟩ ∧
    ¬ (([0] : List ℤ).length = 0) :=
  ⟨rfl, by norm_num⟩

/-- C5 amended: after every sequence of quiz operations (from the initial
state, on a nonempty question list), the run succeeds and: while still in
QUIZ, `quizAnswers.length = currentQuizIndex`; once finalized into RATING,
`quizAnswers.length = currentQuizIndex + 1` (the index is not advanced by
the finalizing call); and in both cases the score equals the count of
recorded answers that are not the skip sentinel `-1` and equal their
question's correct option index. -/
theorem c5_quiz_invariant_amended (quiz : List QuizQuestion) (hq : quiz ≠ [])
    (ops : List QuizOp) :
    ∃ s, runQuiz quiz ops = some s ∧
      (s.inRating = false → s.quizAnswers.length = s.currentQuizIndex) ∧
      (s.inRating = true → s.quizAnswers.length = s.currentQuizIndex + 1) ∧
      s.quizScore = scoreOf quiz s.quizAnswers := by
  have h0 : quizInv quiz quizInit :=
    ⟨fun _ => ⟨rfl, List.length_pos.2 hq⟩,
      ⟨fun h => by simp [quizInit] at h, rfl⟩⟩
  obtain ⟨s, hsrun, hinv⟩ := runQuizFrom_inv quiz ops quizInit h0
  exact ⟨s, hsrun, fun h => (hinv.1 h).1, fun h => (hinv.2.1 h).1, hinv.2.2⟩

/-- Witness for the amended C5 theorem on a concrete quiz and operation
list. -/
theorem c5_quiz_invariant_amended_witness :
    ∃ s, runQuiz [⟨"q", ["a", "b"], 0⟩] [.answer 1, .previous, .answer 0] = some s ∧
      (s.inRating = false → s.quizAnswers.length = s.currentQuizIndex) ∧
      (s.inRating = true → s.quizAnswers.length = s.currentQuizIndex + 1) ∧
      s.quizScore = scoreOf [⟨"q", ["a", "b"], 0⟩] s.quizAnswers :=
  c5_quiz_invariant_amended [⟨"q", ["a", "b"], 0⟩] (by simp)
    [.answer 1, .previous, .answer 0]

/-- C6 counterexample: on the 3-question quiz with correct indices
`[1, 0, 2]`, the sequence `answer 1, answer 0, previous, answer 0` leaves
`currentQuizIndex = 2`, `score = 2`, `answers = [1, 0]` — not the claimed
index 1, score 1, answers `[1]` (the fourth call answers question 1 again
and advances). -/
theorem c6_counterexample :
    runQuiz
        [⟨"q1", ["a", "b", "c"], 1⟩, ⟨"q2", ["a", "b", "c"], 0⟩,
          ⟨"q3", ["a", "b", "c"], 2⟩]
        [.answer 1, .answer 0, .previous, .answer 0]
      = some ⟨2, 2, [1, 0], false⟩ ∧ ¬ ((2 : ℕ) = 1) :=
  ⟨rfl, by norm_num⟩

/-- C6 amended: the actual trace on the 3-question quiz with correct
indices `[1, 0, 2]`: `answer 1, answer 0, previous, answer 0` yields index
2, score 2, answers `[1, 0]`, still in QUIZ; the following `skip`
finalizes into RATING with index staying 2, score 2, answers
`[1, 0, -1]`; the final `answer 2` can no longer occur (RATING renders no
quiz controls) and changes nothing. -/
theorem c6_scenario_amended :
    runQuiz
        [⟨"q1", ["a", "b", "c"], 1⟩, ⟨"q2", ["a", "b", "c"], 0⟩,
          ⟨"q3", ["a", "b", "c"], 2⟩]
        [.answer 1, .answer 0, .previous, .answer 0]
      = some ⟨2, 2, [1, 0], false⟩ ∧
    runQuiz
        [⟨"q1", ["a", "b", "c"], 1⟩, ⟨"q2", ["a", "b", "c"], 0⟩,
          ⟨"q3", ["a", "b", "c"], 2⟩]
        [.answer 1, .answer 0, .previous, .answer 0, .skip, .answer 2]
      = some ⟨2, 2, [1, 0, -1], true⟩ :=
  ⟨rfl, rfl⟩

/-- C4: interrupting a playing lesson at instant `t1` and completing the
interruption successfully (recording stopped, answer audio loaded and
played, answer audio naturally completed) returns the session to PLAYING,
and the resume `play` call at instant `t4` restores the lesson track to
exactly the position it had at the interrupt — regardless of the instants
`t2` and `t4`, i.e. of how long the interruption took — because no step in
between modifies the paused lesson handle. -/
theorem c4_resume_restores_position (s : Session) (p : AudioPlayer)
    (b : AudioBuffer) (hst : s.state = SessionState.PLAYING)
    (hlp : s.lessonPlayer = some p) (hpl : p.isPlaying = true)
    (hsrc : p.source = true) (hb : p.buffer = some b)
    (t1 t2 t4 : ℚ) (abytes : List ℕ) :
    (runSession s [.interrupt t1, .stopRec, .answerSuccess abytes t2,
        .answerEnded, .playEffect t4]).state = SessionState.PLAYING ∧
    ((runSession s [.interrupt t1, .stopRec, .answerSuccess abytes t2,
        .answerEnded, .playEffect t4]).lessonPlayer.map
          (fun q => q.getCurrentTime t4))
      = some (p.getCurrentTime t1) := by
  have h1 : sessionStep s (.interrupt t1)
      = { s with lessonPlayer := some (p.pause t1),
                 state := SessionState.LISTENING } := by
    simp [sessionStep, hlp, hst]
  have h2 : sessionStep
      { s with lessonPlayer := some (p.pause t1),
               state := SessionState.LISTENING } SessionEvent.stopRec
      = { s with lessonPlayer := some (p.pause t1),
                 state := SessionState.PROCESSING } := by
    simp [sessionStep]
  have h3 : sessionStep
      { s with lessonPlayer := some (p.pause t1),
               state := SessionState.PROCESSING } (.answerSuccess abytes t2)
      = { s with lessonPlayer := some (p.pause t1),
                 state := SessionState.ANSWERING,
                 answerPlayer :=
                   some (((AudioPlayer.new 1).loadAudio abytes).play t2) } := by
    simp [sessionStep]
  have h4 : sessionStep
      { s with lessonPlayer := some (p.pause t1),
               state := SessionState.ANSWERING,
               answerPlayer :=
                 some (((AudioPlayer.new 1).loadAudio abytes).play t2) }
      SessionEvent.answerEnded
      = { s with lessonPlayer := some (p.pause t1),
                 state := SessionState.PLAYING,
                 answerPlayer :=
                   some ((((AudioPlayer.new 1).loadAudio abytes).play t2).naturalEnd) } := by
    simp [sessionStep, AudioPlayer.play, AudioPlayer.loadAudio, AudioPlayer.new]
  have h5 : sessionStep
      { s with lessonPlayer := some (p.pause t1),
               state := SessionState.PLAYING,
               answerPlayer :=
                 some ((((AudioPlayer.new 1).loadAudio abytes).play t2).naturalEnd) }
      (.playEffect t4)
      = { s with lessonPlayer := some ((p.pause t1).play t4),
                 state := SessionState.PLAYING,
                 answerPlayer :=
                   some ((((AudioPlayer.new 1).loadAudio abytes).play t2).naturalEnd) } := by
    simp [sessionStep]
  have hpause : p.pause t1
      = { p with pausedAt := p.pausedAt + (t1 - p.startTime) * p.playbackRate,
                 isPlaying := false, source := false } := by
    simp [AudioPlayer.pause, hsrc, hpl]
  have hfinal : ((p.pause t1).play t4).getCurrentTime t4 = p.getCurrentTime t1 := by
    rw [hpause]
    simp [AudioPlayer.play, hb, AudioPlayer.getCurrentTime, hpl]
  have hrun : runSession s [.interrupt t1, .stopRec, .answerSuccess abytes t2,
        .answerEnded, .playEffect t4]
      = { s with lessonPlayer := some ((p.pause t1).play t4),
                 state := SessionState.PLAYING,
                 answerPlayer :=
                   some ((((AudioPlayer.new 1).loadAudio abytes).play t2).naturalEnd) } := by
    show sessionStep (sessionStep (sessionStep (sessionStep
      (sessionStep s (.interrupt t1)) .stopRec) (.answerSuccess abytes t2))
      .answerEnded) (.playEffect t4) = _
    rw [h1, h2, h3, h4, h5]
  rw [hrun]
  exact ⟨rfl, by simp [hfinal]⟩

/-- Witness for C4 at a concrete playing session, interrupt at instant 2,
resume at instant 9. -/
theorem c4_resume_restores_position_witness :
    (runSession
        ⟨SessionState.PLAYING, 1, some (((AudioPlayer.new 1).loadAudio [0, 0]).play 0),
          none, []⟩
        [.interrupt 2, .stopRec, .answerSuccess [] 3, .answerEnded,
          .playEffect 9]).state = SessionState.PLAYING ∧
    ((runSession
        ⟨SessionState.PLAYING, 1, some (((AudioPlayer.new 1).loadAudio [0, 0]).play 0),
          none, []⟩
        [.interrupt 2, .stopRec, .answerSuccess [] 3, .answerEnded,
          .playEffect 9]).lessonPlayer.map (fun q => q.getCurrentTime 9))
      = some ((((AudioPlayer.new 1).loadAudio [0, 0]).play 0).getCurrentTime 2) :=
  c4_resume_restores_position _ _ (decodeAudioData [0, 0]) rfl rfl rfl rfl rfl 2 3 9 []

/-- C7 counterexample: with an empty quiz list loaded, upon the natural
completion of the lesson audio the session is in QUIZ, not RATING: the
completion callback sets QUIZ unconditionally. -/
theorem c7_counterexample :
    (runSession (Session.init (9 / 10))
        [.loadReady [] [1, 2], .playEffect 0, .lessonEnded]).state
      = SessionState.QUIZ ∧
    ¬ (runSession (Session.init (9 / 10))
        [.loadReady [] [1, 2], .playEffect 0, .lessonEnded]).state
      = SessionState.RATING := by
  have h : (runSession (Session.init (9 / 10))
      [.loadReady [] [1, 2], .playEffect 0, .lessonEnded]).state
        = SessionState.QUIZ := by
    norm_num [runSession, Session.init, sessionStep, AudioPlayer.new,
      AudioPlayer.loadAudio, AudioPlayer.play, AudioPlayer.naturalEnd, List.foldl]
  refine ⟨h, ?_⟩
  rw [h]
  decide

/-- C7 amended: the lesson completion callback sets QUIZ unconditionally
(line 181 of the component), so even when the quiz list returned at
loading time is empty, the session transitions PLAYING → QUIZ upon the
natural completion of the lesson audio; it never transitions directly to
RATING at that point. -/
theorem c7_empty_quiz_amended (r : ℚ) (bytes : List ℕ) (t : ℚ) :
    (runSession (Session.init r)
        [.loadReady [] bytes, .playEffect t, .lessonEnded]).state
      = SessionState.QUIZ := by
  simp [runSession, Session.init, sessionStep, AudioPlayer.new,
    AudioPlayer.loadAudio, AudioPlayer.play, AudioPlayer.naturalEnd, List.foldl]

/-- C8: when the answer pipeline fails while PROCESSING, the session
transitions directly back to PLAYING, the resume `play` call restores the
lesson track to exactly the position recorded when the interrupt started,
and the ANSWERING state is never entered anywhere along the trace; the
failure never terminates the session. -/
theorem c8_answer_failure_resumes (s : Session) (p : AudioPlayer)
    (b : AudioBuffer) (hst : s.state = SessionState.PLAYING)
    (hlp : s.lessonPlayer = some p) (hpl : p.isPlaying = true)
    (hsrc : p.source = true) (hb : p.buffer = some b) (t1 t2 : ℚ) :
    (runSession s [.interrupt t1, .stopRec, .answerFail,
        .playEffect t2]).state = SessionState.PLAYING ∧
    ((runSession s [.interrupt t1, .stopRec, .answerFail,
        .playEffect t2]).lessonPlayer.map (fun q => q.getCurrentTime t2))
      = some (p.getCurrentTime t1) ∧
    SessionState.ANSWERING ∉
      sessionStates s [.interrupt t1, .stopRec, .answerFail, .playEffect t2] := by
  have h1 : sessionStep s (.interrupt t1)
      = { s with lessonPlayer := some (p.pause t1),
                 state := SessionState.LISTENING } := by
    simp [sessionStep, hlp, hst]
  have h2 : sessionStep
      { s with lessonPlayer := some (p.pause t1),
               state := SessionState.LISTENING } SessionEvent.stopRec
      = { s with lessonPlayer := some (p.pause t1),
                 state := SessionState.PROCESSING } := by
    simp [sessionStep]
  have h3 : sessionStep
      { s with lessonPlayer := some (p.pause t1),
               state := SessionState.PROCESSING } SessionEvent.answerFail
      = { s with lessonPlayer := some (p.pause t1),
                 state := SessionState.PLAYING } := by
    simp [sessionStep]
  have h4 : sessionStep
      { s with lessonPlayer := some (p.pause t1),
               state := SessionState.PLAYING } (.playEffect t2)
      = { s with lessonPlayer := some ((p.pause t1).play t2),
                 state := SessionState.PLAYING } := by
    simp [sessionStep]
  have hpause : p.pause t1
      = { p with pausedAt := p.pausedAt + (t1 - p.startTime) * p.playbackRate,
                 isPlaying := false, source := false } := by
    simp [AudioPlayer.pause, hsrc, hpl]
  have hfinal : ((p.pause t1).play t2).getCurrentTime t2 = p.getCurrentTime t1 := by
    rw [hpause]
    simp [AudioPlayer.play, hb, AudioPlayer.getCurrentTime, hpl]
  have hrun : runSession s [.interrupt t1, .stopRec, .answerFail, .playEffect t2]
      = { s with lessonPlayer := some ((p.pause t1).play t2),
                 state := SessionState.PLAYING } := by
    show sessionStep (sessionStep (sessionStep (sessionStep s (.interrupt t1))
      .stopRec) .answerFail) (.playEffect t2) = _
    rw [h1, h2, h3, h4]
  refine ⟨by rw [hrun], by rw [hrun]; simp [hfinal], ?_⟩
  show SessionState.ANSWERING ∉
    (([SessionEvent.interrupt t1, .stopRec, .answerFail,
        .playEffect t2].scanl sessionStep s).map Session.state)
  simp only [List.scanl, h1, h2, h3, h4, List.map_cons, List.map_nil]
  simp [hst]

/-- Witness for C8 at a concrete playing session, interrupt at instant 2,
resume at instant 7. -/
theorem c8_answer_failure_resumes_witness :
    (runSession
        ⟨SessionState.PLAYING, 1, some (((AudioPlayer.new 1).loadAudio [0, 0]).play 0),
          none, []⟩
        [.interrupt 2, .stopRec, .answerFail, .playEffect 7]).state
      = SessionState.PLAYING ∧
    ((runSession
        ⟨SessionState.PLAYING, 1, some (((AudioPlayer.new 1).loadAudio [0, 0]).play 0),
          none, []⟩
        [.interrupt 2, .stopRec, .answerFail, .playEffect 7]).lessonPlayer.map
          (fun q => q.getCurrentTime 7))
      = some ((((AudioPlayer.new 1).loadAudio [0, 0]).play 0).getCurrentTime 2) ∧
    SessionState.ANSWERING ∉
      sessionStates
        ⟨SessionState.PLAYING, 1, some (((AudioPlayer.new 1).loadAudio [0, 0]).play 0),
          none, []⟩
        [.interrupt 2, .stopRec, .answerFail, .playEffect 7] :=
  c8_answer_failure_resumes _ _ (decodeAudioData [0, 0]) rfl rfl rfl rfl rfl 2 7

end Tutor
